import Mathlib

/-!
Verification of the data-visualisation agent's core pipeline.

This file gives a shallow embedding, in Lean 4, of the pure core of
`ai_data_visualisation_agent.py`:

* `match_code_blocks` — the regex-based code-block extractor built on
  `re.compile(r"\x60\x60\x60python\n(.*?)\n\x60\x60\x60", re.DOTALL)` together with
  `pattern.search`.  Python's `search` tries each start position from the
  left; at the first position where the whole pattern can match, the lazy
  group `(.*?)` takes the shortest text ending at the first occurrence of
  the closing fence.  The embedding `searchBlock` reproduces exactly that:
  scan for the opening fence, and after an opening fence take the text up
  to the first later closing fence; if an opening fence has no later
  closing fence the scan resumes one character further right.
* `code_interpret` — the sandbox-run wrapper: an execution reporting an
  error yields no results (`none`), otherwise the result list is returned.
* `chat_with_llm` — the orchestration: one model call, extraction, and at
  most one remote execution, instrumented with an explicit event trace
  (`Event`) recording each external call and user-facing message.
* the result-rendering loop of `main` — items probed by attribute /
  runtime type in the source order, a visualisation counter incremented at
  the head of each guarded visualisation branch, failing display actions
  converted to positional warnings, and the trailing "no visualisation"
  warning.

All definitions are executable; machine strings are Lean `String`s
(lists of unicode scalar values, as in Python 3).
-/

/-- The opening fence recognised by the extractor's regex: three backticks,
the language tag `python`, and a newline. -/
def openFence : List Char := "```python\n".data

/-- The closing fence recognised by the extractor's regex: a newline then
three backticks. -/
def closeFence : List Char := "\n```".data

/-- `leadsWith p s` is true when `p` is an initial segment of `s`
(character-by-character comparison, as the regex engine does for a
literal). -/
def leadsWith : List Char → List Char → Bool
  | [], _ => true
  | _ :: _, [] => false
  | p :: ps, c :: cs => if p = c then leadsWith ps cs else false

/-- Split `s` at the first occurrence of `pat`: returns the text before
that occurrence and the text after it.  This is how the lazy group
`(.*?)` followed by a literal behaves: the shortest prefix up to the
first occurrence of the literal. -/
def splitAtFirst (pat : List Char) : List Char → Option (List Char × List Char)
  | [] => none
  | c :: rest =>
      if leadsWith pat (c :: rest) then
        some ([], List.drop pat.length (c :: rest))
      else
        match splitAtFirst pat rest with
        | some (b, a) => some (c :: b, a)
        | none => none

/-- `re.search` over the fenced-block pattern: try each start position from
the left; where the opening fence matches, the block's content runs to the
first later closing fence; an opening fence with no later closing fence
fails at that position and the scan resumes one character to the right. -/
def searchBlock : List Char → Option (List Char)
  | [] => none
  | c :: rest =>
      if leadsWith openFence (c :: rest) then
        match splitAtFirst closeFence (List.drop openFence.length (c :: rest)) with
        | some (b, _) => some b
        | none => searchBlock rest
      else searchBlock rest

/-- Embedding of `match_code_blocks` (source lines 44-49): return the first
matched group, or the empty string when the pattern does not match.  The
Lean function is total, so "never raises" holds by construction. -/
def match_code_blocks (llm_response : String) : String :=
  match searchBlock llm_response.data with
  | some code => String.mk code
  | none => ""

lemma leadsWith_append (p t : List Char) : leadsWith p (p ++ t) = true := by
  induction p with
  | nil => rfl
  | cons c cs ih => simpa [leadsWith] using ih

lemma leadsWith_exists {p s : List Char} (h : leadsWith p s = true) :
    ∃ t, s = p ++ t := by
  induction p generalizing s with
  | nil => exact ⟨s, rfl⟩
  | cons c cs ih =>
      cases s with
      | nil => simp [leadsWith] at h
      | cons b bs =>
          unfold leadsWith at h
          split at h
          · next hcb =>
              obtain ⟨t, ht⟩ := ih h
              exact ⟨t, by rw [ht, hcb]; rfl⟩
          · exact absurd h (by simp)

lemma splitAtFirst_cons (pat : List Char) (c : Char) (rest : List Char) :
    splitAtFirst pat (c :: rest) =
      if leadsWith pat (c :: rest) then
        some ([], List.drop pat.length (c :: rest))
      else
        match splitAtFirst pat rest with
        | some (b, a) => some (c :: b, a)
        | none => none := rfl

lemma splitAtFirst_sound (pat : List Char) :
    ∀ (s b a : List Char), splitAtFirst pat s = some (b, a) → s = b ++ pat ++ a := by
  intro s
  induction s with
  | nil => intro b a h; cases h
  | cons c rest ih =>
      intro b a h
      rw [splitAtFirst_cons] at h
      split at h
      · next hl =>
          obtain ⟨t, ht⟩ := leadsWith_exists hl
          simp only [Option.some.injEq, Prod.mk.injEq] at h
          obtain ⟨hb, ha⟩ := h
          subst hb
          rw [ht, List.drop_left] at ha
          rw [ht, ← ha]
          rfl
      · next hl =>
          cases hm : splitAtFirst pat rest with
          | some pr =>
              obtain ⟨b', a'⟩ := pr
              rw [hm] at h
              simp only [Option.some.injEq, Prod.mk.injEq] at h
              obtain ⟨hb, ha⟩ := h
              subst ha
              rw [← hb, ih b' a' hm]
              rfl
          | none => rw [hm] at h; cases h

lemma searchBlock_cons (c : Char) (rest : List Char) :
    searchBlock (c :: rest) =
      if leadsWith openFence (c :: rest) then
        match splitAtFirst closeFence (List.drop openFence.length (c :: rest)) with
        | some (b, _) => some b
        | none => searchBlock rest
      else searchBlock rest := rfl

lemma splitAtFirst_complete (pat : List Char) (hp : pat ≠ []) :
    ∀ (b a : List Char),
      (∀ j, j < b.length → leadsWith pat ((b ++ pat ++ a).drop j) = false) →
      splitAtFirst pat (b ++ pat ++ a) = some (b, a) := by
  intro b
  induction b with
  | nil =>
      intro a _
      obtain ⟨c, cs, hc⟩ := List.exists_cons_of_ne_nil hp
      have hx : ([] : List Char) ++ pat ++ a = c :: (cs ++ a) := by
        rw [List.nil_append, hc]; rfl
      rw [hx, splitAtFirst_cons]
      have hpa : pat ++ a = c :: (cs ++ a) := by rw [hc]; rfl
      have hlw : leadsWith pat (c :: (cs ++ a)) = true := by
        rw [← hpa]; exact leadsWith_append pat a
      rw [if_pos hlw]
      have hdrop : List.drop pat.length (c :: (cs ++ a)) = a := by
        rw [← hpa]; exact List.drop_left pat a
      rw [hdrop]
  | cons x b' ih =>
      intro a h
      have hx : (x :: b') ++ pat ++ a = x :: (b' ++ pat ++ a) := by simp
      rw [hx, splitAtFirst_cons]
      have hlw : leadsWith pat (x :: (b' ++ pat ++ a)) = false := by
        have h0 := h 0 (by simp)
        rw [hx] at h0
        simpa using h0
      rw [if_neg (by simp only [hlw]; decide)]
      have harg : ∀ j, j < b'.length → leadsWith pat ((b' ++ pat ++ a).drop j) = false := by
        intro j hj
        have h0 := h (j + 1) (by simpa using Nat.succ_lt_succ hj)
        rw [hx] at h0
        simpa [List.drop_succ_cons] using h0
      rw [ih a harg]

lemma searchBlock_complete : ∀ (pre code post : List Char),
    (∀ j, j < pre.length →
      leadsWith openFence ((pre ++ openFence ++ code ++ closeFence ++ post).drop j) = false) →
    (∀ j, j < code.length →
      leadsWith closeFence ((code ++ closeFence ++ post).drop j) = false) →
    searchBlock (pre ++ openFence ++ code ++ closeFence ++ post) = some code := by
  intro pre
  induction pre with
  | nil =>
      intro code post _ h2
      obtain ⟨c, cs, hc⟩ := List.exists_cons_of_ne_nil (show openFence ≠ [] by decide)
      have hx : ([] : List Char) ++ openFence ++ code ++ closeFence ++ post
          = c :: (cs ++ (code ++ closeFence ++ post)) := by
        rw [hc]; simp [List.append_assoc]
      rw [hx, searchBlock_cons]
      have hofx : c :: (cs ++ (code ++ closeFence ++ post))
          = openFence ++ (code ++ closeFence ++ post) := by
        rw [hc]; rfl
      have hlw : leadsWith openFence (c :: (cs ++ (code ++ closeFence ++ post))) = true := by
        rw [hofx]; exact leadsWith_append _ _
      rw [if_pos hlw]
      have hdrop : List.drop openFence.length (c :: (cs ++ (code ++ closeFence ++ post)))
          = code ++ closeFence ++ post := by
        rw [hofx]; exact List.drop_left _ _
      rw [hdrop, splitAtFirst_complete closeFence (by decide) code post h2]
  | cons x pre' ih =>
      intro code post h1 h2
      have hx : (x :: pre') ++ openFence ++ code ++ closeFence ++ post
          = x :: (pre' ++ openFence ++ code ++ closeFence ++ post) := by simp
      rw [hx, searchBlock_cons]
      have hlw : leadsWith openFence
          (x :: (pre' ++ openFence ++ code ++ closeFence ++ post)) = false := by
        have h0 := h1 0 (by simp)
        rw [hx] at h0
        simpa using h0
      rw [if_neg (by simp only [hlw]; decide)]
      apply ih code post ?_ h2
      intro j hj
      have h0 := h1 (j + 1) (by simpa using Nat.succ_lt_succ hj)
      rw [hx] at h0
      simpa [List.drop_succ_cons] using h0

lemma searchBlock_sound : ∀ (s c : List Char),
    searchBlock s = some c →
    ∃ pre post, s = pre ++ openFence ++ c ++ closeFence ++ post := by
  intro s
  induction s with
  | nil => intro c h; cases h
  | cons x rest ih =>
      intro c h
      rw [searchBlock_cons] at h
      split at h
      · next hl =>
          obtain ⟨t, ht⟩ := leadsWith_exists hl
          cases hm : splitAtFirst closeFence (List.drop openFence.length (x :: rest)) with
          | some pr =>
              obtain ⟨b, a⟩ := pr
              rw [hm] at h
              have hb : b = c := by simpa using h
              have hsp := splitAtFirst_sound closeFence _ b a hm
              have hdrop : List.drop openFence.length (x :: rest) = t := by
                rw [ht]; exact List.drop_left _ _
              have ht2 : t = b ++ closeFence ++ a := by rw [← hdrop, hsp]
              refine ⟨[], a, ?_⟩
              rw [ht, ht2, hb]
              simp [List.append_assoc]
          | none =>
              rw [hm] at h
              obtain ⟨pre, post, hp⟩ := ih c h
              exact ⟨x :: pre, post, by simp [hp]⟩
      · next hl =>
          obtain ⟨pre, post, hp⟩ := ih c h
          exact ⟨x :: pre, post, by simp [hp]⟩

lemma no_opener_no_decomp (s : List Char)
    (h : ∀ j, j < s.length → leadsWith openFence (s.drop j) = false) :
    ¬ ∃ pre code post, s = pre ++ openFence ++ code ++ closeFence ++ post := by
  rintro ⟨pre, code, post, rfl⟩
  have hofl : 0 < openFence.length := by decide
  have hj : pre.length < (pre ++ openFence ++ code ++ closeFence ++ post).length := by
    simp only [List.length_append]
    omega
  have h0 := h pre.length hj
  have hdrop : (pre ++ openFence ++ code ++ closeFence ++ post).drop pre.length
      = openFence ++ (code ++ closeFence ++ post) := by
    have hx : pre ++ openFence ++ code ++ closeFence ++ post
        = pre ++ (openFence ++ (code ++ closeFence ++ post)) := by
      simp [List.append_assoc]
    rw [hx]
    exact List.drop_left _ _
  rw [hdrop, leadsWith_append] at h0
  cases h0

/-- Claim C1: for an input text containing a fenced code block — a
decomposition `pre ++ openFence ++ code ++ closeFence ++ post` in which the
opening fence at position `pre.length` is the first opening-fence
occurrence of the text and the closing fence after `code` is the first
closing-fence occurrence after that opening fence — `match_code_blocks`
returns exactly the enclosed text `code`, verbatim, with no fence
markers. -/
theorem C1_extractor_returns_enclosed_text (pre code post : List Char)
    (h1 : ∀ j, j < pre.length →
      leadsWith openFence ((pre ++ openFence ++ code ++ closeFence ++ post).drop j) = false)
    (h2 : ∀ j, j < code.length →
      leadsWith closeFence ((code ++ closeFence ++ post).drop j) = false) :
    match_code_blocks (String.mk (pre ++ openFence ++ code ++ closeFence ++ post))
      = String.mk code := by
  unfold match_code_blocks
  rw [show (String.mk (pre ++ openFence ++ code ++ closeFence ++ post)).data
        = pre ++ openFence ++ code ++ closeFence ++ post from rfl,
      searchBlock_complete pre code post h1 h2]

/-- Witness for C1: the spec's scenario input yields exactly the enclosed
code. -/
theorem C1_witness :
    match_code_blocks "Here:\n```python\nprint(1+1)\n```\n" = "print(1+1)" :=
  C1_extractor_returns_enclosed_text
    ("Here:\n".data) ("print(1+1)".data) ("\n".data) (by decide) (by decide)

/-- Claim C2: for an input text containing no fenced code block (no
decomposition into prefix, opening fence, content, closing fence, suffix
exists), `match_code_blocks` returns the empty string.  The embedding is a
total function, so the "never raises" part — including on malformed or
unterminated fences — holds by construction for every input. -/
theorem C2_no_block_returns_empty (s : String)
    (h : ¬ ∃ pre code post : List Char,
        s.data = pre ++ openFence ++ code ++ closeFence ++ post) :
    match_code_blocks s = "" := by
  unfold match_code_blocks
  cases hm : searchBlock s.data with
  | none => rfl
  | some c =>
      obtain ⟨pre, post, hp⟩ := searchBlock_sound s.data c hm
      exact absurd ⟨pre, c, post, hp⟩ h

/-- Witness for C2: a text with prose, an inline-backtick span and an
unterminated fence opener has no recognizable block and extracts to the
empty string. -/
theorem C2_witness :
    match_code_blocks "Prose with `inline` marks and a dangling ``` fence." = "" :=
  C2_no_block_returns_empty _ (no_opener_no_decomp _ (by decide))

/-- Claim C3: when the text contains two fenced code blocks — the first
one being the first opening-fence occurrence, closed at the first
closing-fence occurrence after it — the extractor returns the contents of
only the first block; the second block (inside `mid ++ openFence ++ code2
++ closeFence ++ post`) is dropped. -/
theorem C3_only_first_block (pre code1 mid code2 post : List Char)
    (h1 : ∀ j, j < pre.length →
      leadsWith openFence
        ((pre ++ openFence ++ code1 ++ closeFence
            ++ (mid ++ openFence ++ code2 ++ closeFence ++ post)).drop j) = false)
    (h2 : ∀ j, j < code1.length →
      leadsWith closeFence
        ((code1 ++ closeFence
            ++ (mid ++ openFence ++ code2 ++ closeFence ++ post)).drop j) = false) :
    match_code_blocks
        (String.mk (pre ++ openFence ++ code1 ++ closeFence
            ++ (mid ++ openFence ++ code2 ++ closeFence ++ post)))
      = String.mk code1 := by
  unfold match_code_blocks
  rw [show (String.mk (pre ++ openFence ++ code1 ++ closeFence
        ++ (mid ++ openFence ++ code2 ++ closeFence ++ post))).data
      = pre ++ openFence ++ code1 ++ closeFence
        ++ (mid ++ openFence ++ code2 ++ closeFence ++ post) from rfl,
      searchBlock_complete pre code1
        (mid ++ openFence ++ code2 ++ closeFence ++ post) h1 h2]

/-- Witness for C3: a response with two python blocks extracts only the
first block's contents. -/
theorem C3_witness :
    match_code_blocks
        "A\n```python\nx = 1\n```\nand also\n```python\ny = 2\n```\n" = "x = 1" :=
  C3_only_first_block
    ("A\n".data) ("x = 1".data) ("\nand also\n".data) ("y = 2".data) ("\n".data)
    (by decide) (by decide)

/-- Counterexample for C4: the response consisting of an opening fence, an
empty body and a closing fence IS a recognizable fenced code block (shown
by the explicit decomposition), yet the extracted code is empty — refuting
the claimed "non-empty iff a block is present". -/
theorem C4_counterexample :
    ("```python\n\n```" : String).data
      = ([] : List Char) ++ openFence ++ ([] : List Char) ++ closeFence ++ ([] : List Char) ∧
    match_code_blocks "```python\n\n```" = "" :=
  ⟨by decide, by decide⟩

/-- Claim C4 (amended): the extracted code is non-empty ONLY IF the
response contains at least one recognizable fenced code block; the
converse direction fails when the recognized block has empty content. -/
theorem C4_nonempty_implies_block (s : String)
    (h : match_code_blocks s ≠ "") :
    ∃ pre code post : List Char,
      s.data = pre ++ openFence ++ code ++ closeFence ++ post := by
  unfold match_code_blocks at h
  cases hm : searchBlock s.data with
  | none => rw [hm] at h; exact absurd rfl h
  | some c =>
      obtain ⟨pre, post, hp⟩ := searchBlock_sound s.data c hm
      exact ⟨pre, c, post, hp⟩

/-- Witness for the amended C4: a response with a real block has non-empty
extraction, hence a decomposition exists. -/
theorem C4_witness :
    ∃ pre code post : List Char,
      ("Sure:\n```python\nimport pandas\n```\nDone." : String).data
        = pre ++ openFence ++ code ++ closeFence ++ post :=
  C4_nonempty_implies_block _ (by decide)

/-- Claim C9: the extractor recognizes only fences opened exactly by
three backticks, the tag `python` and a newline, and closed by a newline
then three backticks: whenever no exact opening-fence occurrence is
followed (at distance at least the opening fence's length) by an exact
closing-fence occurrence, `match_code_blocks` returns the empty string.
This covers bare fences, other language tags, and closing fences not
preceded by a newline. -/
theorem C9_exact_fences_only (s : String)
    (h : ∀ j, j < s.data.length → leadsWith openFence (s.data.drop j) = true →
      ∀ k, k < s.data.length → openFence.length + j ≤ k →
        leadsWith closeFence (s.data.drop k) = false) :
    match_code_blocks s = "" := by
  unfold match_code_blocks
  cases hm : searchBlock s.data with
  | none => rfl
  | some c =>
      exfalso
      obtain ⟨pre, post, hp⟩ := searchBlock_sound s.data c hm
      have hofl : openFence.length = 10 := by decide
      have hcfl : closeFence.length = 4 := by decide
      have hlen : s.data.length
          = pre.length + openFence.length + c.length + closeFence.length + post.length := by
        rw [hp]; simp [List.length_append]; omega
      have hdropj : s.data.drop pre.length = openFence ++ (c ++ closeFence ++ post) := by
        have hx : s.data = pre ++ (openFence ++ (c ++ closeFence ++ post)) := by
          rw [hp]; simp [List.append_assoc]
        rw [hx]; exact List.drop_left _ _
      have hj : leadsWith openFence (s.data.drop pre.length) = true := by
        rw [hdropj]; exact leadsWith_append _ _
      have hdropk : s.data.drop (pre.length + openFence.length + c.length)
          = closeFence ++ post := by
        have hx : s.data = (pre ++ openFence ++ c) ++ (closeFence ++ post) := by
          rw [hp]; simp [List.append_assoc]
        have hkl : pre.length + openFence.length + c.length
            = (pre ++ openFence ++ c).length := by simp [List.length_append]; omega
        rw [hx, hkl]; exact List.drop_left _ _
      have hk : leadsWith closeFence
          (s.data.drop (pre.length + openFence.length + c.length)) = true := by
        rw [hdropk]; exact leadsWith_append _ _
      have h0 := h pre.length (by omega) hj
          (pre.length + openFence.length + c.length) (by omega) (by omega)
      rw [h0] at hk
      cases hk

/-- Witness for C9: a bare fence, a javascript-tagged fence, and a closing
fence not preceded by a newline all extract to the empty string. -/
theorem C9_witness :
    match_code_blocks "```\nprint(1)\n```\n" = "" ∧
    match_code_blocks "```javascript\nlet x = 1\n```\n" = "" ∧
    match_code_blocks "```python\nprint(1)```\n" = "" :=
  ⟨C9_exact_fences_only _ (by decide),
   C9_exact_fences_only _ (by decide),
   C9_exact_fences_only _ (by decide)⟩

/-- One structured result item as the rendering loop of `main` (source
lines 291-349) probes it at runtime: attribute presence (`png`, `figure`,
`show`), a plotly-shaped type name, `isinstance` checks for
DataFrame/Series, `str`, and `int`/`float`, plus one flag per guarded
display action recording whether that action succeeds (`true`) or raises
(`false`) — e.g. `pngDecodes = false` models corrupt image bytes. -/
structure Item where
  hasPng : Bool
  pngTruthy : Bool
  pngDecodes : Bool
  hasFigure : Bool
  figureRenders : Bool
  hasShow : Bool
  plotlyTyped : Bool
  plotlyRenders : Bool
  isTable : Bool
  isStr : Bool
  isNum : Bool
  genericRenders : Bool
deriving DecidableEq

/-- Outcome of one remote sandbox run (`e2b.run_code`): an optional error
report and the ordered list of structured results. -/
structure Execution where
  error : Option String
  results : List Item
deriving DecidableEq

/-- Embedding of `code_interpret` (source lines 21-42): run the code in
the sandbox; if the execution object reports an error, log it and return
`None`; otherwise return the result list. -/
def code_interpret (runCode : String → Execution) (code : String) :
    Option (List Item) :=
  match (runCode code).error with
  | some _ => none
  | none => some (runCode code).results

/-- Externally observable events of one `chat_with_llm` invocation: the
single model-provider call, the user-facing error banner, the code
extraction step, the remote execution call, and the user-facing warning
banner. -/
inductive Event where
  | modelCall
  | uiError
  | extractCall
  | execCall
  | uiWarning
deriving DecidableEq, BEq

/-- Tail of the error message `chat_with_llm` returns when the model
provider fails (source line 96). -/
def suffixMsg : String :=
  ". Please select a different model or verify your API key is valid and has access to this model."

/-- Embedding of `chat_with_llm` (source lines 51-105).  The model
provider is abstracted as the outcome of its single invocation (`Except`:
generated text, or the exception's message); the sandbox as a function
from code to an `Execution`.  The returned pair mirrors the source's
`(code_interpreter_results, response_text)` tuple; alongside it the
embedding emits the trace of events in order. -/
def chat_with_llm (model : Except String String) (runCode : String → Execution) :
    (Option (List Item) × String) × List Event :=
  match model with
  | Except.error e =>
      ((none, "Error: " ++ e ++ suffixMsg), [Event.modelCall, Event.uiError])
  | Except.ok responseText =>
      if match_code_blocks responseText ≠ "" then
        ((code_interpret runCode (match_code_blocks responseText), responseText),
          [Event.modelCall, Event.extractCall, Event.execCall])
      else
        ((none, responseText), [Event.modelCall, Event.extractCall, Event.uiWarning])

lemma chat_with_llm_error (e : String) (runCode : String → Execution) :
    chat_with_llm (Except.error e) runCode
      = ((none, "Error: " ++ e ++ suffixMsg), [Event.modelCall, Event.uiError]) := rfl

lemma chat_with_llm_ok (t : String) (runCode : String → Execution) :
    chat_with_llm (Except.ok t) runCode
      = if match_code_blocks t ≠ "" then
          ((code_interpret runCode (match_code_blocks t), t),
            [Event.modelCall, Event.extractCall, Event.execCall])
        else
          ((none, t), [Event.modelCall, Event.extractCall, Event.uiWarning]) := rfl

/-- Claim C5: in every invocation of `chat_with_llm` the model client is
called exactly once and the remote executor at most once; when the
extracted code is empty the executor is never called and the invocation
returns no results together with the raw model text. -/
theorem C5_one_model_call_at_most_one_exec
    (model : Except String String) (runCode : String → Execution) :
    ((chat_with_llm model runCode).2).count Event.modelCall = 1 ∧
    ((chat_with_llm model runCode).2).count Event.execCall ≤ 1 ∧
    ∀ text, model = Except.ok text → match_code_blocks text = "" →
      ((chat_with_llm model runCode).2).count Event.execCall = 0 ∧
      (chat_with_llm model runCode).1 = (none, text) := by
  cases model with
  | error e =>
      rw [chat_with_llm_error]
      refine ⟨rfl, Nat.zero_le 1, ?_⟩
      intro text ht
      cases ht
  | ok responseText =>
      rw [chat_with_llm_ok]
      by_cases hc : match_code_blocks responseText = ""
      · rw [if_neg (not_not_intro hc)]
        refine ⟨rfl, Nat.zero_le 1, ?_⟩
        intro text ht _
        injection ht with ht'
        subst ht'
        exact ⟨rfl, rfl⟩
      · rw [if_pos hc]
        refine ⟨rfl, Nat.le_refl 1, ?_⟩
        intro text ht he
        injection ht with ht'
        subst ht'
        exact absurd he hc

/-- Witness for C5: a model response with no fenced block triggers no
execution and returns the raw text with no results. -/
theorem C5_witness :
    ((chat_with_llm (Except.ok "Only prose.") (fun _ => ⟨none, []⟩)).2).count
        Event.modelCall = 1 ∧
    ((chat_with_llm (Except.ok "Only prose.") (fun _ => ⟨none, []⟩)).2).count
        Event.execCall = 0 ∧
    (chat_with_llm (Except.ok "Only prose.") (fun _ => ⟨none, []⟩)).1
        = (none, "Only prose.") := by
  have h := C5_one_model_call_at_most_one_exec
      (Except.ok "Only prose.") (fun _ => ⟨none, []⟩)
  have h2 := h.2.2 "Only prose." rfl (by decide)
  exact ⟨h.1, h2.1, h2.2⟩

/-- Claim C6: when the model client fails with message `e`, the
orchestration returns no results plus an error message containing `e`
verbatim, and the event trace shows exactly one model call and neither an
extraction step nor an execution call — no fallback, no retry. -/
theorem C6_model_error_fail_fast (e : String) (runCode : String → Execution) :
    (chat_with_llm (Except.error e) runCode).1.1 = none ∧
    (chat_with_llm (Except.error e) runCode).1.2 = "Error: " ++ e ++ suffixMsg ∧
    (chat_with_llm (Except.error e) runCode).2 = [Event.modelCall, Event.uiError] :=
  ⟨rfl, rfl, rfl⟩

/-- Sandbox stub whose every run reports an error: `code_interpret` maps
it to `none`, the source's execution-failure outcome. -/
def execFail : String → Execution := fun _ => ⟨some "NameError: name is not defined", []⟩

/-- Provider failure text for the C7 counterexample; it happens to contain
a fenced python block, as free-form provider messages may. -/
def cexErr : String := "boom\n```python\nx\n```"

/-- The model response equal to the error message the orchestration builds
from `cexErr`. -/
def cexMsg : String := "Error: " ++ cexErr ++ suffixMsg

/-- Counterexample for C7: a model-provider failure with message `cexErr`
and a remote-execution failure on the response `cexMsg` produce literally
the same returned outcome `(none, cexMsg)` — the caller cannot
distinguish the "execution error" outcome from the "model error" outcome.
The last two conjuncts certify the second invocation really takes the
execution path (extraction non-empty) and really fails in the sandbox. -/
theorem C7_counterexample :
    (chat_with_llm (Except.error cexErr) execFail).1
      = (chat_with_llm (Except.ok cexMsg) execFail).1 ∧
    match_code_blocks cexMsg ≠ "" ∧
    (execFail (match_code_blocks cexMsg)).error ≠ none :=
  ⟨by decide, by decide, by decide⟩

/-- Claim C7 (amended): a remote execution failure is surfaced by the
orchestration as the outcome (no results, raw model text) after exactly
one model call, one extraction and one execution call; the executor's
error report itself is only logged, not returned, so the outcome carries
no distinct "execution error" tag and is not in general distinguishable
by the caller from the model-error or no-code outcomes. -/
theorem C7_exec_failure_outcome (text err : String) (res : List Item)
    (he : match_code_blocks text ≠ "") :
    (chat_with_llm (Except.ok text) (fun _ => ⟨some err, res⟩)).1 = (none, text) ∧
    (chat_with_llm (Except.ok text) (fun _ => ⟨some err, res⟩)).2
      = [Event.modelCall, Event.extractCall, Event.execCall] := by
  rw [chat_with_llm_ok, if_pos he]
  exact ⟨rfl, rfl⟩

/-- Witness for the amended C7: a response with a failing division block
yields (no results, raw text) after model, extraction and execution. -/
theorem C7_witness :
    (chat_with_llm (Except.ok "```python\n1/0\n```")
        (fun _ => ⟨some "ZeroDivisionError", []⟩)).1 = (none, "```python\n1/0\n```") ∧
    (chat_with_llm (Except.ok "```python\n1/0\n```")
        (fun _ => ⟨some "ZeroDivisionError", []⟩)).2
      = [Event.modelCall, Event.extractCall, Event.execCall] :=
  C7_exec_failure_outcome "```python\n1/0\n```" "ZeroDivisionError" [] (by decide)

/-- One display action of the rendering loop (source lines 291-355):
either a successful display (image with its visualisation-counter caption,
themed figure, plotly chart, data table / text / metric / generic write
with the item's 1-based position where the source shows one) or one of the
warnings the source emits, each warning carrying the 1-based item position
it names; `warnNoViz` is the trailing "no visualizations were generated"
warning of line 352 and `warnNoResults` the one of line 355. -/
inductive DisplayAction where
  | displayImage (caption : Nat)
  | displayFigure
  | displayPlotly
  | displayTable (pos : Nat)
  | displayText
  | displayMetric
  | displayGeneric (pos : Nat)
  | warnImage (pos : Nat)
  | warnFigure (pos : Nat)
  | warnPlotly (pos : Nat)
  | warnGeneric (pos : Nat)
  | warnNoViz
  | warnNoResults
deriving DecidableEq

/-- One iteration of the rendering loop at item index `idx` (0-based) with
current visualisation counter `vc`: the source's if/elif/else attribute
probing, with the counter incremented as the first statement inside each
guarded visualisation branch — hence also when the display that follows
fails — and each failing guarded display converted to a warning naming
position `idx + 1`.  Returns the updated counter and the emitted action. -/
def renderItem (idx vc : Nat) (r : Item) : Nat × DisplayAction :=
  if r.hasPng && r.pngTruthy then
    (vc + 1, if r.pngDecodes then DisplayAction.displayImage (vc + 1)
             else DisplayAction.warnImage (idx + 1))
  else if r.hasFigure then
    (vc + 1, if r.figureRenders then DisplayAction.displayFigure
             else DisplayAction.warnFigure (idx + 1))
  else if r.hasShow || r.plotlyTyped then
    (vc + 1, if r.plotlyRenders then DisplayAction.displayPlotly
             else DisplayAction.warnPlotly (idx + 1))
  else if r.isTable then (vc, DisplayAction.displayTable (idx + 1))
  else if r.isStr then (vc, DisplayAction.displayText)
  else if r.isNum then (vc, DisplayAction.displayMetric)
  else (vc, if r.genericRenders then DisplayAction.displayGeneric (idx + 1)
            else DisplayAction.warnGeneric (idx + 1))

/-- The `for idx, result in enumerate(code_results)` loop: fold
`renderItem` over the items, threading the index and the visualisation
counter; returns the final counter and the emitted actions in order. -/
def renderLoopGo : List Item → Nat → Nat → Nat × List DisplayAction
  | [], _, vc => (vc, [])
  | r :: rest, idx, vc =>
      ((renderLoopGo rest (idx + 1) (renderItem idx vc r).1).1,
       (renderItem idx vc r).2 :: (renderLoopGo rest (idx + 1) (renderItem idx vc r).1).2)

/-- The truthy branch of `if code_results:`: run the loop from index 0 and
counter 0, then emit the "no visualizations" warning exactly when the
counter is still zero. -/
def renderResults (items : List Item) : List DisplayAction :=
  (renderLoopGo items 0 0).2 ++
    (if (renderLoopGo items 0 0).1 = 0 then [DisplayAction.warnNoViz] else [])

/-- The display section of `main` (source lines 289-355): `None` and the
empty list are both falsy in `if code_results:`, so both take the
else-branch warning; a non-empty list is rendered by the loop. -/
def displayResults : Option (List Item) → List DisplayAction
  | none => [DisplayAction.warnNoResults]
  | some [] => [DisplayAction.warnNoResults]
  | some (r :: rest) => renderResults (r :: rest)

/-- An item matches a visualisation branch of the if/elif chain: truthy
`png` attribute, or a `figure` attribute, or a plotly-shaped object. -/
def isViz (r : Item) : Bool :=
  (r.hasPng && r.pngTruthy) || r.hasFigure || (r.hasShow || r.plotlyTyped)

/-- The guarded display action chosen for this item raises: the branch the
if/elif chain selects has its success flag set to `false`.  The table,
string and numeric branches carry no failure mode in the embedding because
the source performs them unguarded. -/
def itemFails (r : Item) : Bool :=
  if r.hasPng && r.pngTruthy then !r.pngDecodes
  else if r.hasFigure then !r.figureRenders
  else if r.hasShow || r.plotlyTyped then !r.plotlyRenders
  else if r.isTable then false
  else if r.isStr then false
  else if r.isNum then false
  else !r.genericRenders

/-- `a` is one of the per-item warnings naming position `pos`. -/
def isItemWarnAt (a : DisplayAction) (pos : Nat) : Prop :=
  a = DisplayAction.warnImage pos ∨ a = DisplayAction.warnFigure pos ∨
  a = DisplayAction.warnPlotly pos ∨ a = DisplayAction.warnGeneric pos

instance (a : DisplayAction) (pos : Nat) : Decidable (isItemWarnAt a pos) := by
  unfold isItemWarnAt
  infer_instance

lemma renderItem_fst (idx vc : Nat) (r : Item) :
    (renderItem idx vc r).1 = vc + (if isViz r then 1 else 0) := by
  unfold renderItem isViz
  split_ifs <;> simp_all

lemma renderItem_fail_warn (idx vc : Nat) (r : Item) (hf : itemFails r = true) :
    isItemWarnAt (renderItem idx vc r).2 (idx + 1) := by
  unfold renderItem
  unfold itemFails at hf
  split_ifs at hf ⊢ <;> simp_all [isItemWarnAt]

lemma renderItem_ne_warnNoViz (idx vc : Nat) (r : Item) :
    (renderItem idx vc r).2 ≠ DisplayAction.warnNoViz := by
  unfold renderItem
  split_ifs <;> simp_all

lemma renderLoopGo_length (items : List Item) : ∀ (idx vc : Nat),
    ((renderLoopGo items idx vc).2).length = items.length := by
  induction items with
  | nil => intro idx vc; rfl
  | cons r rest ih =>
      intro idx vc
      simp [renderLoopGo, ih]

lemma renderLoopGo_fst (items : List Item) : ∀ (idx vc : Nat),
    (renderLoopGo items idx vc).1 = vc + items.countP (fun r => isViz r) := by
  induction items with
  | nil => intro idx vc; simp [renderLoopGo]
  | cons r rest ih =>
      intro idx vc
      simp only [renderLoopGo, ih, renderItem_fst, List.countP_cons]
      split_ifs <;> omega

lemma renderLoopGo_get_warn (items : List Item) : ∀ (idx vc i : Nat)
    (hi : i < items.length) (ha : i < ((renderLoopGo items idx vc).2).length),
    itemFails (items.get ⟨i, hi⟩) = true →
    isItemWarnAt (((renderLoopGo items idx vc).2).get ⟨i, ha⟩) (idx + i + 1) := by
  induction items with
  | nil => intro idx vc i hi; cases hi
  | cons r rest ih =>
      intro idx vc i hi ha hf
      cases i with
      | zero => exact renderItem_fail_warn idx vc r hf
      | succ i' =>
          have hi' : i' < rest.length := by simpa using hi
          have ha' : i' < ((renderLoopGo rest (idx + 1) (renderItem idx vc r).1).2).length := by
            rw [renderLoopGo_length]; exact hi'
          have hres := ih (idx + 1) (renderItem idx vc r).1 i' hi' ha'
              (by simpa using hf)
          have hpos : idx + 1 + i' + 1 = idx + (i' + 1) + 1 := by omega
          rw [hpos] at hres
          exact hres

lemma warnNoViz_not_mem (items : List Item) : ∀ (idx vc : Nat),
    DisplayAction.warnNoViz ∉ (renderLoopGo items idx vc).2 := by
  induction items with
  | nil => intro idx vc; simp [renderLoopGo]
  | cons r rest ih =>
      intro idx vc
      simp only [renderLoopGo, List.mem_cons, not_or]
      exact ⟨fun h => renderItem_ne_warnNoViz idx vc r h.symm, ih (idx + 1) _⟩

/-- Claim C8: the rendering loop is total over the result list — it emits
exactly one display action per item, in order — and per-item isolated:
when the display action chosen for the item at (0-based) index `i` fails
(e.g. corrupt image bytes), the loop emits a warning naming that item's
1-based position `i + 1` while still emitting one action for every other
item; nothing is raised past the renderer because the embedding of the
loop is a total function whose failure modes are exactly the source's
per-branch try/except conversions to warnings. -/
theorem C8_renderer_total_and_isolated (items : List Item) (i : Nat)
    (hi : i < items.length)
    (ha : i < ((renderLoopGo items 0 0).2).length)
    (hf : itemFails (items.get ⟨i, hi⟩) = true) :
    ((renderLoopGo items 0 0).2).length = items.length ∧
    isItemWarnAt (((renderLoopGo items 0 0).2).get ⟨i, ha⟩) (i + 1) := by
  refine ⟨renderLoopGo_length items 0 0, ?_⟩
  have h := renderLoopGo_get_warn items 0 0 i hi ha hf
  rw [Nat.zero_add] at h
  exact h

/-- Three-item list for the C8 witness: a rendering image, an image whose
decode fails, and a data table. -/
def itemsW : List Item :=
  [⟨true, true, true, false, true, false, false, true, false, false, false, true⟩,
   ⟨true, true, false, false, true, false, false, true, false, false, false, true⟩,
   ⟨false, false, true, false, true, false, false, true, true, false, false, true⟩]

/-- Witness for C8: with a failing image at index 1, the loop still emits
three actions and the one at index 1 is a warning naming position 2. -/
theorem C8_witness :
    ((renderLoopGo itemsW 0 0).2).length = itemsW.length ∧
    isItemWarnAt (((renderLoopGo itemsW 0 0).2).get ⟨1, by decide⟩) 2 :=
  C8_renderer_total_and_isolated itemsW 1 (by decide) (by decide) (by decide)

/-- Claim C10: the visualisation counter counts exactly the items matching
a visualisation branch — the increment happens before the possibly failing
display, so failed displays still count — and, for a non-empty result
list, the "no visualizations" warning is emitted if and only if no item
matched a visualisation branch, regardless of display success. -/
theorem C10_counter_independent_of_display (items : List Item) (h : items ≠ []) :
    (renderLoopGo items 0 0).1 = items.countP (fun r => isViz r) ∧
    (DisplayAction.warnNoViz ∈ displayResults (some items) ↔
      ∀ r ∈ items, isViz r = false) := by
  constructor
  · have h0 := renderLoopGo_fst items 0 0
    simpa using h0
  · obtain ⟨r, rest, rfl⟩ := List.exists_cons_of_ne_nil h
    show DisplayAction.warnNoViz ∈ renderResults (r :: rest) ↔
      ∀ x ∈ r :: rest, isViz x = false
    unfold renderResults
    rw [List.mem_append]
    constructor
    · rintro (hmem | hmem)
      · exact absurd hmem (warnNoViz_not_mem _ 0 0)
      · intro x hx
        by_cases hvc : (renderLoopGo (r :: rest) 0 0).1 = 0
        · have hcount : (r :: rest).countP (fun a => isViz a) = 0 := by
            have h0 := renderLoopGo_fst (r :: rest) 0 0
            omega
          have h1 := List.countP_eq_zero.mp hcount x hx
          simpa using h1
        · rw [if_neg hvc] at hmem
          cases hmem
    · intro hall
      right
      have hcount : (r :: rest).countP (fun a => isViz a) = 0 :=
        List.countP_eq_zero.mpr (fun a hA => by simp [hall a hA])
      have hvc : (renderLoopGo (r :: rest) 0 0).1 = 0 := by
        have h0 := renderLoopGo_fst (r :: rest) 0 0
        omega
      rw [if_pos hvc]
      simp

/-- Single-item list for the C10 witness: an image item whose decode
fails. -/
def itemsV : List Item :=
  [⟨true, true, false, false, true, false, false, true, false, false, false, true⟩]

/-- Witness for C10: the failed image still counts as a visualisation, so
the counter is 1 and the "no visualizations" warning is not emitted. -/
theorem C10_witness :
    (renderLoopGo itemsV 0 0).1 = itemsV.countP (fun r => isViz r) ∧
    (DisplayAction.warnNoViz ∈ displayResults (some itemsV) ↔
      ∀ r ∈ itemsV, isViz r = false) :=
  C10_counter_independent_of_display itemsV (by decide)
